import Mathlib

/-!
Verification of the MCX option-chain server against its specification.

The development shallowly embeds the relevant parts of the source:

* the trading-calendar / market-minutes engine
  (src/server/lib/market-minutes-cache.ts: the market-minutes utility
  section and the MarketMinutesCache wrapper class),
* the sigma-bound volatility formulas (same file, MarketMinutesCache),
* the strike-selection step of TickerService.subscribe
  (src/server/lib/services/ticker.ts, and the earlier revision kept in
  src/unnamed/part_003 which falls back to the extreme strike),
* the margin batch fetch getOrderMargins (src/server/lib/services/kite.ts)
  and the margin merge of TickerService.updateOrderMargins,
* the per-tick recompute TickerService.calculateOptions and the per-client
  snapshot filter TickerService.sendToClients.

Dates are modelled as integer day indices (days since an arbitrary epoch);
wall-clock time inside a day is the integer minute of day, exactly the
`currentHour * 60 + currentMinute` quantity the source computes.  Prices
and volatilities are real numbers; strike comparisons in the selection
step use rationals so the embedded selection is executable.  The seasonal
session shift (`isUsDst`) is, per the specification, "keyed purely by
calendar date", so it is embedded as a per-day Boolean of the calendar.
-/

namespace MCX

/-! ## Calendar engine (market-minutes utility section of
src/server/lib/market-minutes-cache.ts) -/

/-- Holiday kinds stored in the holidays table: a morning holiday closes the
morning session, an evening holiday closes the evening session, a full
holiday closes the whole day. -/
inductive HolidayType where
  | morning
  | evening
  | full
deriving DecidableEq, Repr

/-- The in-memory calendar state: the holiday cache, the weekend predicate
and the US-DST flag, all keyed by the integer day index.  `isUsDst` is a
seasonal rule keyed purely by the calendar date, hence a per-day flag. -/
structure MarketCalendar where
  holiday : ℤ → Option HolidayType
  weekend : ℤ → Bool
  dst : ℤ → Bool

/-- Morning session 9:00 AM - 5:00 PM, 480 minutes (MORNING_SESSION_MINUTES). -/
def morningSessionMinutes : ℤ := 480

/-- Evening session minutes: 5:00 PM - 11:30 PM (390) during US DST,
5:00 PM - 11:55 PM (415) otherwise (getEveningSessionMinutes). -/
def getEveningSessionMinutes (dst : Bool) : ℤ :=
  if dst then 390 else 415

/-- Full trading-day minutes (getFullDayMinutes): 870 during US DST, 895 otherwise. -/
def getFullDayMinutes (dst : Bool) : ℤ :=
  morningSessionMinutes + getEveningSessionMinutes dst

/-- Market minutes contributed by a (non-weekend) day given its holiday kind
(getMarketMinutesForDay): full holiday contributes 0, a morning holiday only
the evening session, an evening holiday only the morning session, a normal
day the full day. -/
def getMarketMinutesForDay (dst : Bool) (holidayType : Option HolidayType) : ℤ :=
  match holidayType with
  | some .full => 0
  | some .morning => getEveningSessionMinutes dst
  | some .evening => morningSessionMinutes
  | none => getFullDayMinutes dst

/-- Minute-of-day at which the morning session starts (9:00 AM). -/
def morningStart : ℤ := 9 * 60 + 0

/-- Minute-of-day at which the morning session ends (5:00 PM). -/
def morningEnd : ℤ := 17 * 60 + 0

/-- Minute-of-day at which the evening session ends: 11:30 PM during US DST,
11:55 PM otherwise. -/
def eveningEnd (dst : Bool) : ℤ :=
  if dst then 23 * 60 + 30 else 23 * 60 + 55

/-- Remaining market minutes for today from the current minute of day
(getRemainingMinutesToday), branch for branch from the source. -/
def getRemainingMinutesToday (dst : Bool) (t : ℤ) (holidayType : Option HolidayType) : ℤ :=
  match holidayType with
  | some .full => 0
  | some .morning =>
      if t < morningEnd then eveningEnd dst - morningEnd
      else if t < eveningEnd dst then eveningEnd dst - t
      else 0
  | some .evening =>
      if t < morningStart then morningEnd - morningStart
      else if t < morningEnd then morningEnd - t
      else 0
  | none =>
      if t < morningStart then getFullDayMinutes dst
      else if t < morningEnd then (morningEnd - t) + getEveningSessionMinutes dst
      else if t < eveningEnd dst then eveningEnd dst - t
      else 0

/-- Market minutes contributed by one day of a range walk: weekends are
skipped, otherwise getMarketMinutesForDay with the day's cached holiday kind. -/
def dayContribution (c : MarketCalendar) (d : ℤ) : ℤ :=
  if c.weekend d then 0 else getMarketMinutesForDay (c.dst d) (c.holiday d)

/-- Total market minutes between two days inclusive
(calculateMarketMinutesInRange).  The source throws when the start is after
the end; the embedding returns none there. -/
def calculateMarketMinutesInRange (c : MarketCalendar) (startDay endDay : ℤ) : Option ℤ :=
  if endDay < startDay then none
  else some (∑ d ∈ Finset.Icc startDay endDay, dayContribution c d)

/-- Intraday-aware market minutes from now until expiry
(calculateMarketMinutesTillExpiry).  `today` is the current day index, `t`
the current minute of day, `expiry` the expiry day index.  A past expiry
yields 0; a same-day expiry yields today's remaining minutes (0 on a
weekend); otherwise today's remaining minutes (if today is a trading day)
plus the full contribution of every day from tomorrow through expiry. -/
def calculateMarketMinutesTillExpiry (c : MarketCalendar) (today t expiry : ℤ) : ℤ :=
  if expiry < today then 0
  else if expiry = today then
    if c.weekend today then 0
    else getRemainingMinutesToday (c.dst today) t (c.holiday today)
  else
    (if c.weekend today then 0
     else getRemainingMinutesToday (c.dst today) t (c.holiday today))
      + ∑ d ∈ Finset.Icc (today + 1) expiry, dayContribution c d

/-! ## MarketMinutesCache.getMarketMinutesTillExpiry (cache wrapper)

The wrapper first consults its expiryMinutesMap, then validates the expiry
string (isValidExpiryDate: parseable in one of the accepted formats and
within [one year ago, five years from now]) and on failure warns, caches 0
and returns 0 instead of throwing.  The date-fns parsing chain is an
external collaborator; it is a parameter `parseDate` returning the parsed
day index, none for empty, blank or unparseable strings. -/

/-- Validity check for an expiry string (isValidExpiryDate): it must parse
and the parsed day must lie between `lo` (one year ago) and `hi` (five
years from now). -/
def isValidExpiryDate (parseDate : String → Option ℤ) (lo hi : ℤ) (e : String) : Bool :=
  match parseDate e with
  | none => false
  | some d => decide (lo ≤ d) && decide (d ≤ hi)

/-- Result of the cache wrapper: the returned minute count, the updated
expiryMinutesMap, and whether the invalid-date warning was emitted.  The
wrapper always returns; the source never throws from this path. -/
structure ExpiryCacheResult where
  value : ℤ
  cache : String → Option ℤ
  warned : Bool

/-- MarketMinutesCache.getMarketMinutesTillExpiry: serve from the cache if
present; otherwise validate (parse + range check) and either compute and
cache the real count, or warn, cache 0 and return 0. -/
def getMarketMinutesTillExpiryCached (c : MarketCalendar) (today t : ℤ)
    (parseDate : String → Option ℤ) (lo hi : ℤ)
    (cache : String → Option ℤ) (e : String) : ExpiryCacheResult :=
  match cache e with
  | some m => ⟨m, cache, false⟩
  | none =>
    match parseDate e with
    | some d =>
        if lo ≤ d ∧ d ≤ hi then
          let m := calculateMarketMinutesTillExpiry c today t d
          ⟨m, fun s => if s = e then some m else cache s, false⟩
        else ⟨0, fun s => if s = e then some 0 else cache s, true⟩
    | none => ⟨0, fun s => if s = e then some 0 else cache s, true⟩

/-- A concrete calendar with no holidays, no weekends and no DST, used to
instantiate universally quantified theorems at concrete inputs. -/
def plainCalendar : MarketCalendar :=
  ⟨fun _ => none, fun _ => false, fun _ => false⟩

/-- A concrete calendar whose only holiday is a full closure on day 5. -/
def fullClosureAt5 : MarketCalendar :=
  ⟨fun d => if d = 5 then some .full else none, fun _ => false, fun _ => false⟩

/-! ## Volatility / sigma formulas (MarketMinutesCache methods)

`T` is the cached market-minute count of the trailing year
(getMarketMinutesInLastYear) and `N` the minute count until the expiry in
question (getMarketMinutesTillExpiry); both are integers produced by the
calendar engine above.  Volatilities are real numbers.  JavaScript
falsiness of a number is equality with 0. -/

/-- Option kind of a contract: call (CE) or put (PE). -/
inductive OptionType where
  | CE
  | PE
deriving DecidableEq, Repr

noncomputable section

/-- MarketMinutesCache.getDvFromAv: daily volatility from annual
volatility, DV = AV / sqrt(T); 0 when the cached T is 0. -/
def getDvFromAv (T : ℤ) (v : ℝ) : ℝ :=
  if T = 0 then 0 else v / Real.sqrt (T : ℝ)

/-- MarketMinutesCache.calculateSD: SD = AV / sqrt(T/N), 0 when either
minute count is 0 (the source checks N === 0 || T === 0; it has no guard
on av itself). -/
def calculateSD (T N : ℤ) (av : ℝ) : ℝ :=
  if N = 0 ∨ T = 0 then 0 else av / Real.sqrt ((T : ℝ) / (N : ℝ))

/-- MarketMinutesCache.calculateSigmaN: σₙ = σ × sdMultiplier. -/
def calculateSigmaN (sigma sdMultiplier : ℝ) : ℝ :=
  sigma * sdMultiplier

/-- MarketMinutesCache.calculateSigmaX: σₓ = σₙ / sqrt(T/N); 0 when σₙ is
falsy or ≤ 0 (together: σₙ ≤ 0), or when either minute count is 0. -/
def calculateSigmaX (T N : ℤ) (sigmaN : ℝ) : ℝ :=
  if sigmaN ≤ 0 then 0
  else if N = 0 ∨ T = 0 then 0
  else sigmaN / Real.sqrt ((T : ℝ) / (N : ℝ))

/-- MarketMinutesCache.calculateSigmaXI: σₓᵢ = σₙ + σₓ for calls and
σₙ − σₓ for puts; 0 when either input is falsy or negative (together:
≤ 0). -/
def calculateSigmaXI (sigmaN sigmaX : ℝ) (optionType : OptionType) : ℝ :=
  if sigmaN ≤ 0 ∨ sigmaX ≤ 0 then 0
  else match optionType with
    | .CE => sigmaN + sigmaX
    | .PE => sigmaN - sigmaX

/-- MarketMinutesCache.calculateAllSigmas: the σ → σₙ → σₓ → σₓᵢ pipeline,
returning (σₙ, σₓ, σₓᵢ). -/
def calculateAllSigmas (T N : ℤ) (av sdMultiplier : ℝ) (optionType : OptionType) :
    ℝ × ℝ × ℝ :=
  let sigma := calculateSD T N av
  let sigmaN := calculateSigmaN sigma sdMultiplier
  let sigmaX := calculateSigmaX T N sigmaN
  let sigmaXI := calculateSigmaXI sigmaN sigmaX optionType
  (sigmaN, sigmaX, sigmaXI)

end

/-! ## Strike selection (TickerService.subscribe)

The subscribe cycle loads the option rows for one (underlying, expiry),
derives the put strikes sorted descending and the call strikes sorted
ascending, locates the first put strike at or under the PE floor bound and
the first call strike at or over the CE ceiling bound, and keeps every put
at or under the former and every call at or over the latter.  Strikes and
bounds are rationals here so the selection is executable.  Two revisions
are embedded: the current one in src/server/lib/services/ticker.ts, which
selects nothing on a side whose bound no strike satisfies, and the earlier
one kept in src/unnamed/part_003, which falls back to the extreme
available strike through the JavaScript or-default
(`find(...) || strikes[strikes.length - 1]`). -/

/-- One option row as consumed by the selection step. -/
structure OptionInstrument where
  instrumentToken : ℕ
  instrumentType : OptionType
  strike : ℚ
deriving DecidableEq, Repr

/-- Ordered insertion of one strike (model of the comparator-based
JavaScript sort; stable and permutation-preserving, which is all the
selection step relies on). -/
def insertStrike (le : ℚ → ℚ → Bool) (x : ℚ) : List ℚ → List ℚ
  | [] => [x]
  | y :: ys => if le x y then x :: y :: ys else y :: insertStrike le x ys

/-- Insertion sort over strikes with the given comparator. -/
def sortStrikes (le : ℚ → ℚ → Bool) : List ℚ → List ℚ
  | [] => []
  | x :: xs => insertStrike le x (sortStrikes le xs)

/-- Put strikes of the loaded rows, sorted descending. -/
def putStrikesOf (options : List OptionInstrument) : List ℚ :=
  sortStrikes (fun a b => decide (b ≤ a))
    ((options.filter fun s => decide (s.instrumentType = OptionType.PE)).map
      fun s => s.strike)

/-- Call strikes of the loaded rows, sorted ascending. -/
def callStrikesOf (options : List OptionInstrument) : List ℚ :=
  sortStrikes (fun a b => decide (a ≤ b))
    ((options.filter fun s => decide (s.instrumentType = OptionType.CE)).map
      fun s => s.strike)

/-- Strike selection of the current TickerService.subscribe: puts at or
under the closest floor strike, calls at or over the closest ceiling
strike; a side whose bound no strike satisfies selects nothing (the
`closestStrike ? ... : false` conditional). -/
def selectInstruments (options : List OptionInstrument) (ceBound peBound : ℚ) :
    List OptionInstrument :=
  let closestFloorStrike := (putStrikesOf options).find? fun strike => decide (strike ≤ peBound)
  let closestCeilingStrike := (callStrikesOf options).find? fun strike => decide (ceBound ≤ strike)
  options.filter fun s =>
    match s.instrumentType with
    | .PE =>
        match closestFloorStrike with
        | some f => decide (s.strike ≤ f)
        | none => false
    | .CE =>
        match closestCeilingStrike with
        | some cl => decide (cl ≤ s.strike)
        | none => false

/-- Strike selection of the earlier TickerService.subscribe revision
(src/unnamed/part_003): when no strike satisfies a bound, the or-default
falls back to the last element of the sorted strike list — the lowest put
strike resp. the highest call strike; only with no strikes at all on the
side does the comparison against the undefined bound select nothing. -/
def selectInstrumentsOld (options : List OptionInstrument) (ceBound peBound : ℚ) :
    List OptionInstrument :=
  let closestFloorStrike :=
    match (putStrikesOf options).find? fun strike => decide (strike ≤ peBound) with
    | some f => some f
    | none => (putStrikesOf options).getLast?
  let closestCeilingStrike :=
    match (callStrikesOf options).find? fun strike => decide (ceBound ≤ strike) with
    | some cl => some cl
    | none => (callStrikesOf options).getLast?
  options.filter fun s =>
    match s.instrumentType with
    | .PE =>
        match closestFloorStrike with
        | some f => decide (s.strike ≤ f)
        | none => false
    | .CE =>
        match closestCeilingStrike with
        | some cl => decide (cl ≤ s.strike)
        | none => false

/-- A single put row with strike 100, used to exhibit the fallback of the
earlier selection revision. -/
def lonePut : OptionInstrument := ⟨1, OptionType.PE, 100⟩

/-! ## Margin batch fetch (getOrderMargins in src/server/lib/services/kite.ts)

The external margin RPC is an oracle `respond attempt symbols`, returning
the response of that attempt, or none when the call throws.  A margin
entry resolves when its `total` is truthy (nonzero). -/

/-- One compact margin entry of the RPC response. -/
structure CompactMargin where
  tradingsymbol : String
  total : ℚ
deriving DecidableEq, Repr

/-- The retry loop of getOrderMargins over the remaining attempt numbers:
stop when no symbols remain; on a response keep the margins with truthy
total and retry the rest; on a thrown call rethrow if it was the last
attempt, else retry the same symbols. -/
def getOrderMarginsGo (respond : ℕ → List String → Option (List CompactMargin)) :
    List ℕ → List CompactMargin → List String →
      Except Unit (List CompactMargin × List String)
  | [], allMargins, remainingSymbols => .ok (allMargins, remainingSymbols)
  | attempt :: rest, allMargins, remainingSymbols =>
    if remainingSymbols.isEmpty then .ok (allMargins, remainingSymbols)
    else
      match respond attempt remainingSymbols with
      | some margins =>
          let fetchedMargins := margins.filter fun m => !decide (m.total = 0)
          let failedSymbols :=
            (margins.filter fun m => decide (m.total = 0)).map fun m => m.tradingsymbol
          getOrderMarginsGo respond rest (allMargins ++ fetchedMargins) failedSymbols
      | none =>
          if rest.isEmpty then .error ()
          else getOrderMarginsGo respond rest allMargins remainingSymbols

/-- getOrderMargins: MAX_RETRIES = 3 attempts, starting from the full
symbol list with no margins collected; returns the collected margins and
the symbols still unresolved (which the source logs). -/
def getOrderMargins (respond : ℕ → List String → Option (List CompactMargin))
    (tradingsymbols : List String) : Except Unit (List CompactMargin × List String) :=
  getOrderMarginsGo respond [1, 2, 3] [] tradingsymbols

/-- The margin RPC answers each request with exactly one margin entry per
requested symbol, in order (how the source indexes responses by
tradingsymbol assumes this shape). -/
def RespondsPerRequest (respond : ℕ → List String → Option (List CompactMargin)) : Prop :=
  ∀ attempt syms margins, respond attempt syms = some margins →
    margins.map (fun m => m.tradingsymbol) = syms

/-- An RPC oracle that resolves every requested symbol with total 5 on the
first attempt. -/
def resolveAll : ℕ → List String → Option (List CompactMargin) :=
  fun _ syms => some (syms.map fun s => ⟨s, 5⟩)

/-! ## Option-chain entries, the per-tick recompute and the per-client
snapshot filter (TickerService in src/server/lib/services/ticker.ts) -/

/-- The mutable option-chain working record (shared/types OptionChain
restricted to the fields the embedded operations touch; the transport-only
marketDepth payload and the static exchange metadata are omitted). -/
structure OptionChain where
  instrumentToken : ℕ
  tradingsymbol : String
  name : String
  expiry : String
  strike : ℝ
  lotSize : ℝ
  instrumentType : OptionType
  futExpiry : String
  underlyingLtp : ℝ
  bid : ℝ
  sellValue : ℝ
  strikePosition : ℝ
  orderMargin : ℝ
  returnValue : ℝ
  sd : ℝ
  sigmaN : ℝ
  sigmaX : ℝ
  sigmaXI : ℝ
  delta : ℝ
  av : ℝ
  dv : ℝ
  addedValue : ℝ

/-- One step of the margin merge of TickerService.updateOrderMargins: look
up the token of the fetched margin's tradingsymbol and, when the
option-chain map holds that token, overwrite the entry's orderMargin with
the fetched total; otherwise (token unknown or option gone) log and leave
the map as is. -/
def applyMarginStep (tsToTokenMap : String → Option ℕ)
    (chain : ℕ → Option OptionChain) (margin : CompactMargin) :
    ℕ → Option OptionChain :=
  match tsToTokenMap margin.tradingsymbol with
  | some token =>
      match chain token with
      | some foundOption =>
          fun tok =>
            if tok = token then
              some { foundOption with orderMargin := (margin.total : ℝ) }
            else chain tok
      | none => chain
  | none => chain

/-- The margin merge loop of TickerService.updateOrderMargins over all
fetched margins. -/
def applyMargins (tsToTokenMap : String → Option ℕ)
    (optionChain : ℕ → Option OptionChain) (margins : List CompactMargin) :
    ℕ → Option OptionChain :=
  margins.foldl (applyMarginStep tsToTokenMap) optionChain

/-- One insertion step of the sendToClients filter: an option whose
underlying name is in the client's subscribed symbols is added to the
outbound record under its token; others are skipped. -/
def sendToClientsStep (symbols : List String) (filteredOptions : ℕ → Option OptionChain)
    (option : OptionChain) : ℕ → Option OptionChain :=
  if option.name ∈ symbols then
    fun tok => if tok = option.instrumentToken then some option else filteredOptions tok
  else filteredOptions

/-- The outbound per-client record built by TickerService.sendToClients:
the computed options filtered by the client's subscribed symbols, keyed by
instrument token. -/
def sendToClientsFilter (options : List OptionChain) (symbols : List String) :
    ℕ → Option OptionChain :=
  options.foldl (sendToClientsStep symbols) (fun _ => none)

/-! ## Per-tick recompute (TickerService.calculateOptions)

The volatility map, the commodity config cache, the futures LTP table, the
cached minute counts and the Black-Scholes delta routine
(src/server/lib/utils/delta.ts, an external file of the metrics loop) are
parameters.  An instrument whose underlying has no truthy annualized
volatility is skipped for the cycle. -/

/-- The live volatility sample of one underlying (volatilityService.values). -/
structure VolValue where
  av : ℝ
  dv : ℝ

/-- Per-underlying commodity config (bidBalance, multiplier) as cached from
the settings service. -/
structure CommodityConfig where
  bidBalance : ℝ
  multiplier : ℝ

noncomputable section

/-- The per-instrument body of TickerService.calculateOptions: skip when
the underlying's annualized volatility is missing or falsy; otherwise
recompute every derived field of the entry (underlying LTP, strike
position, sell/return value from the bid, σ family per the entry's own
expiry with base multiplier 1, Black-Scholes delta, added value). -/
def calculateOptionsStep (vol : String → Option VolValue)
    (cfg : String → CommodityConfig) (futureLtps : String → String → ℝ) (T : ℤ)
    (minutesTillExpiry : String → ℤ) (deltaFn : ℝ → ℝ → ℝ → ℝ → OptionType → ℝ)
    (instrument : OptionChain) : OptionChain :=
  match vol instrument.name with
  | none => instrument
  | some v =>
    if v.av = 0 then instrument
    else
      let cc := cfg instrument.name
      let underlyingLtp := futureLtps instrument.name instrument.futExpiry
      let strikePosition := |instrument.strike - underlyingLtp| * 100 / underlyingLtp
      let bid := if instrument.bid = 0 then 0 else instrument.bid
      let sellValue :=
        if instrument.bid = 0 then 0
        else (instrument.bid - cc.bidBalance) * instrument.lotSize * cc.multiplier
      let returnValue :=
        if instrument.bid = 0 then 0
        else if 0 < instrument.orderMargin then sellValue / instrument.orderMargin
        else instrument.returnValue
      let N := minutesTillExpiry instrument.expiry
      let sd := calculateSD T N v.av
      let sigmas := calculateAllSigmas T N v.av 1 instrument.instrumentType
      let timeToExpiry := (N : ℝ) / (T : ℝ)
      let delta :=
        deltaFn underlyingLtp instrument.strike (v.av / 100) timeToExpiry
          instrument.instrumentType
      let addedValue := if delta ≠ 0 ∧ returnValue ≠ 0 then returnValue / |delta| else 0
      { instrument with
        av := v.av, dv := v.dv, underlyingLtp := underlyingLtp,
        strikePosition := strikePosition, bid := bid, sellValue := sellValue,
        returnValue := returnValue, sd := sd, sigmaN := sigmas.1,
        sigmaX := sigmas.2.1, sigmaXI := sigmas.2.2, delta := delta,
        addedValue := addedValue }

/-- TickerService.calculateOptions over the whole chain: recompute every
entry in place, then publish the entries whose sellValue exceeds
returnValue (a presentation filter over the updated map, which still holds
every entry).  Returns (updated chain, published snapshot). -/
def calculateOptions (vol : String → Option VolValue) (cfg : String → CommodityConfig)
    (futureLtps : String → String → ℝ) (T : ℤ) (minutesTillExpiry : String → ℤ)
    (deltaFn : ℝ → ℝ → ℝ → ℝ → OptionType → ℝ) (optionChain : List OptionChain) :
    List OptionChain × List OptionChain :=
  let updated :=
    optionChain.map (calculateOptionsStep vol cfg futureLtps T minutesTillExpiry deltaFn)
  (updated, updated.filter fun o => decide (o.returnValue < o.sellValue))

end

/-- A concrete GOLD entry (token 7, sellValue 1, every other numeric field
0), used to instantiate the snapshot-filter and recompute theorems. -/
def goldEntry : OptionChain where
  instrumentToken := 7
  tradingsymbol := "GOLD24AUGFUT"
  name := "GOLD"
  expiry := "2024-08-30"
  strike := 0
  lotSize := 0
  instrumentType := OptionType.CE
  futExpiry := "2024-09-27"
  underlyingLtp := 0
  bid := 0
  sellValue := 1
  strikePosition := 0
  orderMargin := 0
  returnValue := 0
  sd := 0
  sigmaN := 0
  sigmaX := 0
  sigmaXI := 0
  delta := 0
  av := 0
  dv := 0
  addedValue := 0

end MCX

namespace MCX

/-! ## Theorems: calendar engine -/

theorem getMarketMinutesForDay_nonneg (dst : Bool) (ht : Option HolidayType) :
    0 ≤ getMarketMinutesForDay dst ht := by
  cases ht with
  | none =>
      cases dst <;>
        simp [getMarketMinutesForDay, getFullDayMinutes, getEveningSessionMinutes,
          morningSessionMinutes]
  | some h =>
      cases h <;> cases dst <;>
        simp [getMarketMinutesForDay, getFullDayMinutes, getEveningSessionMinutes,
          morningSessionMinutes]

theorem dayContribution_nonneg (c : MarketCalendar) (d : ℤ) :
    0 ≤ dayContribution c d := by
  unfold dayContribution
  split
  · exact le_refl 0
  · exact getMarketMinutesForDay_nonneg _ _

theorem getRemainingMinutesToday_nonneg (dst : Bool) (t : ℤ) (ht : Option HolidayType) :
    0 ≤ getRemainingMinutesToday dst t ht := by
  cases ht with
  | none =>
      cases dst <;>
        (simp only [getRemainingMinutesToday, getFullDayMinutes, getEveningSessionMinutes,
          morningSessionMinutes, morningStart, morningEnd, eveningEnd] <;> (try split_ifs) <;> omega)
  | some h =>
      cases h <;> cases dst <;>
        (simp only [getRemainingMinutesToday, getFullDayMinutes, getEveningSessionMinutes,
          morningSessionMinutes, morningStart, morningEnd, eveningEnd] <;> (try split_ifs) <;> omega)

theorem getRemainingMinutesToday_antitone (dst : Bool) (t1 t2 : ℤ)
    (ht : Option HolidayType) (h : t1 ≤ t2) :
    getRemainingMinutesToday dst t2 ht ≤ getRemainingMinutesToday dst t1 ht := by
  cases ht with
  | none =>
      cases dst <;>
        (simp only [getRemainingMinutesToday, getFullDayMinutes, getEveningSessionMinutes,
          morningSessionMinutes, morningStart, morningEnd, eveningEnd] <;> (try split_ifs) <;> omega)
  | some h2 =>
      cases h2 <;> cases dst <;>
        (simp only [getRemainingMinutesToday, getFullDayMinutes, getEveningSessionMinutes,
          morningSessionMinutes, morningStart, morningEnd, eveningEnd] <;> (try split_ifs) <;> omega)

/-- C3: a past expiry yields 0 market minutes
(calculateMarketMinutesTillExpiry returns 0 for every expiry day strictly
before today), and the cache wrapper getMarketMinutesTillExpiry returns 0
with a warning, without throwing, for every expiry string that fails
validation (unparseable or out of range). -/
theorem past_or_invalid_expiry_yields_zero :
    (∀ (c : MarketCalendar) (today t expiry : ℤ), expiry < today →
      calculateMarketMinutesTillExpiry c today t expiry = 0) ∧
    (∀ (c : MarketCalendar) (today t : ℤ) (parseDate : String → Option ℤ) (lo hi : ℤ)
      (cache : String → Option ℤ) (e : String),
      cache e = none →
      isValidExpiryDate parseDate lo hi e = false →
      (getMarketMinutesTillExpiryCached c today t parseDate lo hi cache e).value = 0 ∧
      (getMarketMinutesTillExpiryCached c today t parseDate lo hi cache e).warned = true) := by
  constructor
  · intro c today t expiry h
    unfold calculateMarketMinutesTillExpiry
    rw [if_pos h]
  · intro c today t parseDate lo hi cache e hc hv
    rcases hp : parseDate e with _ | d
    · simp only [getMarketMinutesTillExpiryCached, hc, hp]
      constructor <;> trivial
    · have hrange : ¬(lo ≤ d ∧ d ≤ hi) := by
        simp only [isValidExpiryDate, hp, Bool.and_eq_false_iff, decide_eq_false_iff_not] at hv
        tauto
      simp only [getMarketMinutesTillExpiryCached, hc, hp, if_neg hrange]
      constructor <;> trivial

/-- Witness for C3 at concrete inputs: expiry day 50 before today 100, and
an expiry string that no parser accepts against an empty cache. -/
theorem past_or_invalid_expiry_yields_zero_witness :
    calculateMarketMinutesTillExpiry plainCalendar 100 600 50 = 0 ∧
    (getMarketMinutesTillExpiryCached plainCalendar 100 600 (fun _ => none) 0 1000
      (fun _ => none) "bad").value = 0 ∧
    (getMarketMinutesTillExpiryCached plainCalendar 100 600 (fun _ => none) 0 1000
      (fun _ => none) "bad").warned = true := by
  refine ⟨past_or_invalid_expiry_yields_zero.1 plainCalendar 100 600 50 (by decide), ?_, ?_⟩
  · exact (past_or_invalid_expiry_yields_zero.2 plainCalendar 100 600 (fun _ => none) 0 1000
      (fun _ => none) "bad" rfl rfl).1
  · exact (past_or_invalid_expiry_yields_zero.2 plainCalendar 100 600 (fun _ => none) 0 1000
      (fun _ => none) "bad" rfl rfl).2

/-- Unfolding lemma: same-day expiry reduces to today's remaining minutes. -/
theorem calcTillExpiry_sameDay (c : MarketCalendar) (today t : ℤ) :
    calculateMarketMinutesTillExpiry c today t today =
      if c.weekend today then 0
      else getRemainingMinutesToday (c.dst today) t (c.holiday today) := by
  unfold calculateMarketMinutesTillExpiry
  rw [if_neg (lt_irrefl today), if_pos rfl]

theorem calcTillExpiry_futureDay (c : MarketCalendar) (today t expiry : ℤ)
    (h : today < expiry) :
    calculateMarketMinutesTillExpiry c today t expiry =
      (if c.weekend today then 0
       else getRemainingMinutesToday (c.dst today) t (c.holiday today))
        + ∑ d ∈ Finset.Icc (today + 1) expiry, dayContribution c d := by
  unfold calculateMarketMinutesTillExpiry
  rw [if_neg (by omega), if_neg (by omega)]

/-- C4: for every expiry on or after today, the intraday-aware minute count
is nonnegative, and within a fixed day it is non-increasing in the current
wall-clock minute: evaluating later in the day never yields more remaining
minutes. -/
theorem minutes_till_expiry_nonneg_antitone (c : MarketCalendar) (today t1 t2 expiry : ℤ)
    (hexp : today ≤ expiry) (ht : t1 ≤ t2) :
    0 ≤ calculateMarketMinutesTillExpiry c today t2 expiry ∧
    calculateMarketMinutesTillExpiry c today t2 expiry ≤
      calculateMarketMinutesTillExpiry c today t1 expiry := by
  have hsum : 0 ≤ ∑ d ∈ Finset.Icc (today + 1) expiry, dayContribution c d :=
    Finset.sum_nonneg fun d _ => dayContribution_nonneg c d
  rcases eq_or_lt_of_le hexp with heq | hgt
  · subst heq
    rw [calcTillExpiry_sameDay, calcTillExpiry_sameDay]
    split_ifs
    · exact ⟨le_refl 0, le_refl 0⟩
    · exact ⟨getRemainingMinutesToday_nonneg _ _ _,
        getRemainingMinutesToday_antitone _ _ _ _ ht⟩
  · rw [calcTillExpiry_futureDay c today t1 expiry hgt,
      calcTillExpiry_futureDay c today t2 expiry hgt]
    constructor
    · apply add_nonneg _ hsum
      split_ifs
      · exact le_refl 0
      · exact getRemainingMinutesToday_nonneg _ _ _
    · apply add_le_add_right
      split_ifs
      · exact le_refl 0
      · exact getRemainingMinutesToday_antitone _ _ _ _ ht

/-- Witness for C4 at a concrete calendar: expiry day 5, today day 0,
evaluation minutes 600 and 700. -/
theorem minutes_till_expiry_nonneg_antitone_witness :
    0 ≤ calculateMarketMinutesTillExpiry plainCalendar 0 700 5 ∧
    calculateMarketMinutesTillExpiry plainCalendar 0 700 5 ≤
      calculateMarketMinutesTillExpiry plainCalendar 0 600 5 :=
  minutes_till_expiry_nonneg_antitone plainCalendar 0 600 700 5 (by decide) (by decide)

/-- C8: the per-day minute dispatch follows the holiday kind — a full
closure contributes 0, a morning holiday only the evening session, an
evening holiday only the morning session, a normal day the sum of both —
and consequently a full-closure day contributes exactly 0 to any range
computation spanning it: the range total equals the total with that day
erased from the walk. -/
theorem day_kind_dispatch_and_full_closure_zero :
    (∀ dst : Bool,
      getMarketMinutesForDay dst (some .full) = 0 ∧
      getMarketMinutesForDay dst (some .morning) = getEveningSessionMinutes dst ∧
      getMarketMinutesForDay dst (some .evening) = morningSessionMinutes ∧
      getMarketMinutesForDay dst none = morningSessionMinutes + getEveningSessionMinutes dst) ∧
    (∀ (c : MarketCalendar) (s e d : ℤ), s ≤ d → d ≤ e → c.holiday d = some .full →
      calculateMarketMinutesInRange c s e =
        some (∑ x ∈ (Finset.Icc s e).erase d, dayContribution c x)) := by
  constructor
  · intro dst
    exact ⟨rfl, rfl, rfl, rfl⟩
  · intro c s e d hsd hde hful
    have hzero : dayContribution c d = 0 := by
      simp [dayContribution, hful, getMarketMinutesForDay]
    unfold calculateMarketMinutesInRange
    rw [if_neg (by omega)]
    exact congrArg some (Finset.sum_erase _ hzero).symm

/-- Witness for C8: the calendar with a full closure on day 5, range day 3
through day 7. -/
theorem day_kind_dispatch_and_full_closure_zero_witness :
    getMarketMinutesForDay true (some .full) = 0 ∧
    calculateMarketMinutesInRange fullClosureAt5 3 7 =
      some (∑ x ∈ (Finset.Icc (3:ℤ) 7).erase 5, dayContribution fullClosureAt5 x) :=
  ⟨(day_kind_dispatch_and_full_closure_zero.1 true).1,
    day_kind_dispatch_and_full_closure_zero.2 fullClosureAt5 3 7 5 (by decide) (by decide) rfl⟩

/-- C2 counterexample: sigmaN = 0 satisfies the claim's hypothesis
"sigmaN ≥ 0", yet calculateSigmaXI(0, 1, CE) is 0, not 0 + 1 = 1 — the
JavaScript falsiness guard `!sigmaN` rejects 0 itself, so the claimed
sum/difference form fails on the boundary of the claimed domain. -/
theorem calculateSigmaXI_zero_boundary_counterexample :
    (0:ℝ) ≤ 0 ∧ (0:ℝ) ≤ 1 ∧ calculateSigmaXI 0 1 OptionType.CE ≠ 0 + 1 := by
  refine ⟨le_refl _, zero_le_one, ?_⟩
  have h : calculateSigmaXI 0 1 OptionType.CE = 0 := by
    unfold calculateSigmaXI
    rw [if_pos (Or.inl (le_refl 0))]
  rw [h]
  norm_num

/-- C2 (amended): for strictly positive sigmaN and sigmaX,
calculateSigmaXI yields sigmaN + sigmaX for calls and sigmaN − sigmaX for
puts, and it returns 0 whenever either argument is ≤ 0. -/
theorem calculateSigmaXI_spec (sigmaN sigmaX : ℝ) :
    (0 < sigmaN → 0 < sigmaX →
      calculateSigmaXI sigmaN sigmaX OptionType.CE = sigmaN + sigmaX ∧
      calculateSigmaXI sigmaN sigmaX OptionType.PE = sigmaN - sigmaX) ∧
    (sigmaN ≤ 0 ∨ sigmaX ≤ 0 →
      ∀ optionType, calculateSigmaXI sigmaN sigmaX optionType = 0) := by
  constructor
  · intro h1 h2
    have hc : ¬(sigmaN ≤ 0 ∨ sigmaX ≤ 0) := by
      push_neg
      exact ⟨h1, h2⟩
    constructor <;> (unfold calculateSigmaXI; rw [if_neg hc])
  · intro h optionType
    unfold calculateSigmaXI
    rw [if_pos h]

/-- Witness for C2 (amended) at sigmaN = 2, sigmaX = 1 and at
sigmaN = −1. -/
theorem calculateSigmaXI_spec_witness :
    calculateSigmaXI 2 1 OptionType.CE = 2 + 1 ∧
    calculateSigmaXI (-1) 1 OptionType.PE = 0 :=
  ⟨((calculateSigmaXI_spec 2 1).1 (by norm_num) (by norm_num)).1,
    (calculateSigmaXI_spec (-1) 1).2 (Or.inl (by norm_num)) OptionType.PE⟩

/-- C5 counterexample: calculateSD carries no guard on the annualized
volatility; at av = −1 with T = 4 and N = 1 it returns −1/2, not the 0 the
claim demands for av ≤ 0. -/
theorem calculateSD_negative_av_counterexample :
    (-1:ℝ) ≤ 0 ∧ calculateSD 4 1 (-1) ≠ 0 := by
  refine ⟨by norm_num, ?_⟩
  have hs : Real.sqrt (((4:ℤ) : ℝ) / ((1:ℤ) : ℝ)) = 2 := by
    rw [show ((4:ℤ) : ℝ) / ((1:ℤ) : ℝ) = 2 ^ 2 by norm_num,
      Real.sqrt_sq (by norm_num : (0:ℝ) ≤ 2)]
  unfold calculateSD
  rw [if_neg (by decide), hs]
  norm_num

/-- C5 (amended): the calendar-denominator short-circuits hold —
calculateSD is 0 whenever T = 0 or N = 0 (for every av, though not for
negative av with nonzero denominators), calculateSigmaX is 0 whenever
sigmaN ≤ 0 or T = 0 or N = 0, and for positive T and N the divisor
sqrt(T/N) is nonzero, so no division by zero occurs. -/
theorem sd_sigmaX_short_circuit (T N : ℤ) (av sigmaN : ℝ) :
    (T = 0 ∨ N = 0 → calculateSD T N av = 0) ∧
    (sigmaN ≤ 0 ∨ T = 0 ∨ N = 0 → calculateSigmaX T N sigmaN = 0) ∧
    (0 < T → 0 < N → Real.sqrt ((T : ℝ) / (N : ℝ)) ≠ 0) := by
  refine ⟨?_, ?_, ?_⟩
  · intro h
    unfold calculateSD
    rw [if_pos (by tauto)]
  · intro h
    unfold calculateSigmaX
    by_cases h1 : sigmaN ≤ 0
    · rw [if_pos h1]
    · rw [if_neg h1, if_pos (by tauto)]
  · intro hT hN
    have hpos : (0:ℝ) < (T : ℝ) / (N : ℝ) :=
      div_pos (by exact_mod_cast hT) (by exact_mod_cast hN)
    exact ne_of_gt (Real.sqrt_pos.mpr hpos)

/-- Witness for C5 (amended) at T = 0 resp. sigmaN = −2 resp. T = 4,
N = 1. -/
theorem sd_sigmaX_short_circuit_witness :
    calculateSD 0 5 1 = 0 ∧
    calculateSigmaX 4 1 (-2) = 0 ∧
    Real.sqrt (((4:ℤ) : ℝ) / ((1:ℤ) : ℝ)) ≠ 0 :=
  ⟨(sd_sigmaX_short_circuit 0 5 1 0).1 (Or.inl rfl),
    (sd_sigmaX_short_circuit 4 1 0 (-2)).2.1 (Or.inl (by norm_num)),
    (sd_sigmaX_short_circuit 4 1 0 0).2.2 (by decide) (by decide)⟩

/-- C9 counterexample: with the trailing-year minute count fixed at T = 4,
getDvFromAv(4) = 4/√4 = 2 but getDvFromAv(getDvFromAv(4)) = 2/√4 = 1, so
the conversion is not idempotent. -/
theorem getDvFromAv_not_idempotent :
    getDvFromAv 4 (getDvFromAv 4 4) ≠ getDvFromAv 4 4 := by
  have hs : Real.sqrt ((4:ℤ) : ℝ) = 2 := by
    rw [show ((4:ℤ) : ℝ) = 2 ^ 2 by norm_num,
      Real.sqrt_sq (by norm_num : (0:ℝ) ≤ 2)]
  have h1 : getDvFromAv 4 4 = 2 := by
    unfold getDvFromAv
    rw [if_neg (by decide), hs]
    norm_num
  have h2 : getDvFromAv 4 2 = 1 := by
    unfold getDvFromAv
    rw [if_neg (by decide), hs]
    norm_num
  rw [h1, h2]
  norm_num

/-- C9 (amended): double application of getDvFromAv divides by √T twice,
giving v/T when T > 0; the two applications agree only in the degenerate
cases T = 0, T = 1 or v = 0, not for a general cached T. -/
theorem getDvFromAv_double_application (T : ℤ) (v : ℝ) :
    (0 < T → getDvFromAv T (getDvFromAv T v) = v / (T : ℝ)) ∧
    (T = 0 → getDvFromAv T (getDvFromAv T v) = getDvFromAv T v) ∧
    (T = 1 → getDvFromAv T (getDvFromAv T v) = getDvFromAv T v) ∧
    (v = 0 → getDvFromAv T (getDvFromAv T v) = getDvFromAv T v) := by
  refine ⟨?_, ?_, ?_, ?_⟩
  · intro hT
    have hT0 : T ≠ 0 := by omega
    have hTR : (0:ℝ) ≤ (T : ℝ) := by exact_mod_cast hT.le
    unfold getDvFromAv
    rw [if_neg hT0, if_neg hT0, div_div, Real.mul_self_sqrt hTR]
  · intro h
    subst h
    unfold getDvFromAv
    simp
  · intro h
    subst h
    unfold getDvFromAv
    rw [if_neg (by decide), if_neg (by decide)]
    norm_num
  · intro h
    subst h
    unfold getDvFromAv
    split_ifs <;> simp

/-- Witness for C9 (amended) at T = 4, v = 4. -/
theorem getDvFromAv_double_application_witness :
    getDvFromAv 4 (getDvFromAv 4 4) = 4 / ((4:ℤ) : ℝ) :=
  (getDvFromAv_double_application 4 4).1 (by decide)

theorem mem_insertStrike (le : ℚ → ℚ → Bool) (a x : ℚ) (l : List ℚ) :
    x ∈ insertStrike le a l ↔ x = a ∨ x ∈ l := by
  induction l with
  | nil => simp [insertStrike]
  | cons y ys ih =>
      unfold insertStrike
      split_ifs
      · simp [List.mem_cons]
      · simp only [List.mem_cons, ih]
        tauto

theorem mem_sortStrikes (le : ℚ → ℚ → Bool) (x : ℚ) (l : List ℚ) :
    x ∈ sortStrikes le l ↔ x ∈ l := by
  induction l with
  | nil => simp [sortStrikes]
  | cons y ys ih => simp [sortStrikes, mem_insertStrike, ih]

theorem selectInstruments_def (options : List OptionInstrument) (ceBound peBound : ℚ) :
    selectInstruments options ceBound peBound = options.filter fun s =>
      match s.instrumentType with
      | .PE =>
          match (putStrikesOf options).find? fun strike => decide (strike ≤ peBound) with
          | some f => decide (s.strike ≤ f)
          | none => false
      | .CE =>
          match (callStrikesOf options).find? fun strike => decide (ceBound ≤ strike) with
          | some cl => decide (cl ≤ s.strike)
          | none => false := rfl

/-- C1 counterexample: with a single put of strike 100 and a PE floor bound
of 50, no put strike satisfies the bound, yet the earlier subscribe
revision (src/unnamed/part_003, the lines the claim cites) still selects
the put by falling back to the extreme available strike, so its selected
PE side is not empty. -/
theorem selection_fallback_counterexample :
    (∀ s ∈ [lonePut], s.instrumentType = OptionType.PE → ¬(s.strike ≤ (50:ℚ))) ∧
    selectInstrumentsOld [lonePut] 200 50 ≠ [] := by decide

/-- C1 (amended): in the current TickerService.subscribe
(src/server/lib/services/ticker.ts) the property holds universally — if no
call strike is at or above the CE ceiling bound the selection contains no
call, and if no put strike is at or below the PE floor bound it contains
no put; the earlier revision kept in src/unnamed/part_003 instead falls
back to the extreme available strike. -/
theorem selection_empty_side_when_bound_unmet (options : List OptionInstrument)
    (ceBound peBound : ℚ) :
    ((∀ s ∈ options, s.instrumentType = OptionType.CE → ¬(ceBound ≤ s.strike)) →
      ∀ s ∈ selectInstruments options ceBound peBound,
        s.instrumentType ≠ OptionType.CE) ∧
    ((∀ s ∈ options, s.instrumentType = OptionType.PE → ¬(s.strike ≤ peBound)) →
      ∀ s ∈ selectInstruments options ceBound peBound,
        s.instrumentType ≠ OptionType.PE) := by
  constructor
  · intro h s hs hCE
    have hfind :
        (callStrikesOf options).find? (fun strike => decide (ceBound ≤ strike)) = none := by
      rw [List.find?_eq_none]
      intro x hx
      rw [callStrikesOf, mem_sortStrikes] at hx
      obtain ⟨s2, hs2, hstrike⟩ := List.mem_map.mp hx
      obtain ⟨hmem, hty⟩ := List.mem_filter.mp hs2
      have hnot := h s2 hmem (of_decide_eq_true hty)
      simp only [decide_eq_true_eq]
      exact fun hle => hnot (hstrike ▸ hle)
    rw [selectInstruments_def] at hs
    obtain ⟨hmem, hpred⟩ := List.mem_filter.mp hs
    rw [hCE] at hpred
    simp only [hfind] at hpred
    cases hpred
  · intro h s hs hPE
    have hfind :
        (putStrikesOf options).find? (fun strike => decide (strike ≤ peBound)) = none := by
      rw [List.find?_eq_none]
      intro x hx
      rw [putStrikesOf, mem_sortStrikes] at hx
      obtain ⟨s2, hs2, hstrike⟩ := List.mem_map.mp hx
      obtain ⟨hmem, hty⟩ := List.mem_filter.mp hs2
      have hnot := h s2 hmem (of_decide_eq_true hty)
      simp only [decide_eq_true_eq]
      exact fun hle => hnot (hstrike ▸ hle)
    rw [selectInstruments_def] at hs
    obtain ⟨hmem, hpred⟩ := List.mem_filter.mp hs
    rw [hPE] at hpred
    simp only [hfind] at hpred
    cases hpred

/-- Witness for C1 (amended): the single put of strike 100 with PE floor
bound 50 is not selected by the current revision. -/
theorem selection_empty_side_when_bound_unmet_witness :
    lonePut ∉ selectInstruments [lonePut] 200 50 := fun h =>
  (selection_empty_side_when_bound_unmet [lonePut] 200 50).2 (by decide) lonePut h rfl

theorem getOrderMarginsGo_congr
    (respond respond2 : ℕ → List String → Option (List CompactMargin)) :
    ∀ (attempts : List ℕ) (acc : List CompactMargin) (rem : List String),
      (∀ a ∈ attempts, ∀ syms, respond a syms = respond2 a syms) →
      getOrderMarginsGo respond attempts acc rem =
        getOrderMarginsGo respond2 attempts acc rem := by
  intro attempts
  induction attempts with
  | nil => intro acc rem h; rfl
  | cons a rest ih =>
      intro acc rem h
      have hrest : ∀ b ∈ rest, ∀ syms, respond b syms = respond2 b syms :=
        fun b hb => h b (List.mem_cons_of_mem a hb)
      unfold getOrderMarginsGo
      by_cases hre : rem.isEmpty
      · rw [if_pos hre, if_pos hre]
      · rw [if_neg hre, if_neg hre, h a (List.mem_cons_self a rest) rem]
        cases hr : respond2 a rem with
        | some margins => exact ih _ _ hrest
        | none =>
            by_cases hrem : rest.isEmpty
            · rw [if_pos hrem, if_pos hrem]
            · rw [if_neg hrem, if_neg hrem]
              exact ih _ _ hrest

theorem getOrderMarginsGo_nodup
    (respond : ℕ → List String → Option (List CompactMargin))
    (hresp : RespondsPerRequest respond) :
    ∀ (attempts : List ℕ) (acc : List CompactMargin) (rem : List String),
      ((acc.map fun m => m.tradingsymbol) ++ rem).Nodup →
      ∀ (margins : List CompactMargin) (rem2 : List String),
        getOrderMarginsGo respond attempts acc rem = .ok (margins, rem2) →
        ((margins.map fun m => m.tradingsymbol) ++ rem2).Nodup ∧
        (∀ x, x ∈ (margins.map fun m => m.tradingsymbol) ++ rem2 →
          x ∈ (acc.map fun m => m.tradingsymbol) ++ rem) := by
  intro attempts
  induction attempts with
  | nil =>
      intro acc rem hnd margins rem2 h
      simp only [getOrderMarginsGo, Except.ok.injEq, Prod.mk.injEq] at h
      obtain ⟨h1, h2⟩ := h
      subst h1
      subst h2
      exact ⟨hnd, fun x hx => hx⟩
  | cons a rest ih =>
      intro acc rem hnd margins rem2 h
      unfold getOrderMarginsGo at h
      by_cases hre : rem.isEmpty
      · rw [if_pos hre] at h
        simp only [Except.ok.injEq, Prod.mk.injEq] at h
        obtain ⟨h1, h2⟩ := h
        subst h1
        subst h2
        exact ⟨hnd, fun x hx => hx⟩
      · rw [if_neg hre] at h
        cases hr : respond a rem with
        | none =>
            simp only [hr] at h
            by_cases hrem : rest.isEmpty
            · rw [if_pos hrem] at h
              cases h
            · rw [if_neg hrem] at h
              exact ih acc rem hnd margins rem2 h
        | some ms =>
            simp only [hr] at h
            have hmap : ms.map (fun m => m.tradingsymbol) = rem := hresp a rem ms hr
            have hperm :
                ((ms.filter fun m => !decide (m.total = 0)) ++
                  (ms.filter fun m => decide (m.total = 0))).Perm ms :=
              List.perm_append_comm.trans
                (List.filter_append_perm (fun m => decide (m.total = 0)) ms)
            have hperm2 :
                (((ms.filter fun m => !decide (m.total = 0)).map fun m => m.tradingsymbol) ++
                  ((ms.filter fun m => decide (m.total = 0)).map
                    fun m => m.tradingsymbol)).Perm rem := by
              rw [← List.map_append]
              exact hmap ▸ hperm.map fun m => m.tradingsymbol
            have hnd2 :
                (((acc ++ (ms.filter fun m => !decide (m.total = 0))).map
                    fun m => m.tradingsymbol) ++
                  ((ms.filter fun m => decide (m.total = 0)).map
                    fun m => m.tradingsymbol)).Nodup := by
              rw [List.map_append, List.append_assoc]
              exact ((hperm2.append_left
                (acc.map fun m => m.tradingsymbol)).nodup_iff).mpr hnd
            obtain ⟨hnod, hsub⟩ := ih _ _ hnd2 margins rem2 h
            refine ⟨hnod, fun x hx => ?_⟩
            have hx2 := hsub x hx
            rw [List.map_append, List.append_assoc] at hx2
            rcases List.mem_append.mp hx2 with h1 | h2
            · exact List.mem_append.mpr (Or.inl h1)
            · exact List.mem_append.mpr (Or.inr (hperm2.mem_iff.mp h2))

theorem applyMarginStep_frame (tsToTokenMap : String → Option ℕ)
    (chain : ℕ → Option OptionChain) (margin : CompactMargin) (tok : ℕ)
    (h : tsToTokenMap margin.tradingsymbol ≠ some tok) :
    applyMarginStep tsToTokenMap chain margin tok = chain tok := by
  rcases hm : tsToTokenMap margin.tradingsymbol with _ | token
  · simp only [applyMarginStep, hm]
  · rcases hc : chain token with _ | foundOption
    · simp only [applyMarginStep, hm, hc]
    · simp only [applyMarginStep, hm, hc]
      have hne : tok ≠ token := fun he => h (he ▸ hm)
      exact if_neg hne

theorem applyMargins_frame (tsToTokenMap : String → Option ℕ) :
    ∀ (margins : List CompactMargin) (chain : ℕ → Option OptionChain) (tok : ℕ),
      (∀ m ∈ margins, tsToTokenMap m.tradingsymbol ≠ some tok) →
      applyMargins tsToTokenMap chain margins tok = chain tok := by
  intro margins
  induction margins with
  | nil => intro chain tok h; rfl
  | cons m ms ih =>
      intro chain tok h
      unfold applyMargins at ih ⊢
      rw [List.foldl_cons, ih _ tok fun m2 hm2 => h m2 (List.mem_cons_of_mem m hm2)]
      exact applyMarginStep_frame tsToTokenMap chain m tok
        (h m (List.mem_cons_self m ms))

/-- C6 counterexample: with the duplicated input symbol list A, A and an
RPC that resolves every requested order on the first attempt, the fetch
returns the symbol A twice — the returned margin list can repeat a symbol,
so the claim does not hold for every input symbol list. -/
theorem getOrderMargins_double_resolution_counterexample :
    getOrderMargins resolveAll ["A", "A"] =
      .ok ([⟨"A", 5⟩, ⟨"A", 5⟩], []) ∧
    ¬(([⟨"A", (5:ℚ)⟩, ⟨"A", 5⟩] : List CompactMargin).map
        fun m => m.tradingsymbol).Nodup :=
  ⟨rfl, by decide⟩

/-- C6 (amended): for every duplicate-free input symbol list and every
margin RPC that answers each request with one entry per requested symbol:
the fetch consults the RPC only on attempts 1 through 3 (its result is
unchanged under any oracle agreeing there), on success the returned margin
list names each input symbol at most once and only input symbols, the
symbols reported unresolved are input symbols disjoint from the resolved
ones, and the margin merge leaves every option-chain entry whose token no
resolved margin maps to — in particular those of unresolved symbols —
unchanged, preserving its previous orderMargin. -/
theorem getOrderMargins_spec :
    (∀ (respond respond2 : ℕ → List String → Option (List CompactMargin))
      (tradingsymbols : List String),
      (∀ a ∈ ([1, 2, 3] : List ℕ), ∀ syms, respond a syms = respond2 a syms) →
      getOrderMargins respond tradingsymbols = getOrderMargins respond2 tradingsymbols) ∧
    (∀ (respond : ℕ → List String → Option (List CompactMargin))
      (tradingsymbols : List String) (margins : List CompactMargin) (rem : List String),
      RespondsPerRequest respond → tradingsymbols.Nodup →
      getOrderMargins respond tradingsymbols = .ok (margins, rem) →
      (margins.map fun m => m.tradingsymbol).Nodup ∧
      (∀ x ∈ margins.map fun m => m.tradingsymbol, x ∈ tradingsymbols) ∧
      (∀ x ∈ rem, x ∈ tradingsymbols ∧ x ∉ margins.map fun m => m.tradingsymbol)) ∧
    (∀ (tsToTokenMap : String → Option ℕ) (optionChain : ℕ → Option OptionChain)
      (margins : List CompactMargin) (tok : ℕ),
      (∀ m ∈ margins, tsToTokenMap m.tradingsymbol ≠ some tok) →
      applyMargins tsToTokenMap optionChain margins tok = optionChain tok) := by
  refine ⟨?_, ?_, ?_⟩
  · intro respond respond2 tradingsymbols h
    exact getOrderMarginsGo_congr respond respond2 [1, 2, 3] [] tradingsymbols h
  · intro respond tradingsymbols margins rem hresp hnd hok
    have hstart : ((([] : List CompactMargin).map fun m => m.tradingsymbol) ++
        tradingsymbols).Nodup := by simpa using hnd
    obtain ⟨hnod, hsub⟩ :=
      getOrderMarginsGo_nodup respond hresp [1, 2, 3] [] tradingsymbols hstart
        margins rem hok
    obtain ⟨hnd1, hnd2, hdisj⟩ := List.nodup_append.mp hnod
    refine ⟨hnd1, ?_, ?_⟩
    · intro x hx
      simpa using hsub x (List.mem_append.mpr (Or.inl hx))
    · intro x hx
      refine ⟨by simpa using hsub x (List.mem_append.mpr (Or.inr hx)), fun hmem => ?_⟩
      exact hdisj hmem hx
  · intro tsToTokenMap optionChain margins tok h
    exact applyMargins_frame tsToTokenMap margins optionChain tok h

/-- Witness for C6 (amended) on the input A, B with the always-resolving
oracle, an oracle agreeing with it on attempts 1 through 3, and a margin
merge whose token map resolves nothing. -/
theorem getOrderMargins_spec_witness :
    getOrderMargins resolveAll ["A", "B"] =
      getOrderMargins (fun a syms => if a ≤ 3 then resolveAll a syms else none)
        ["A", "B"] ∧
    ((([⟨"A", (5:ℚ)⟩, ⟨"B", 5⟩] : List CompactMargin).map
        fun m => m.tradingsymbol).Nodup ∧
      (∀ x ∈ ([⟨"A", (5:ℚ)⟩, ⟨"B", 5⟩] : List CompactMargin).map
          fun m => m.tradingsymbol, x ∈ (["A", "B"] : List String)) ∧
      (∀ x ∈ ([] : List String), x ∈ (["A", "B"] : List String) ∧
        x ∉ ([⟨"A", (5:ℚ)⟩, ⟨"B", 5⟩] : List CompactMargin).map
          fun m => m.tradingsymbol)) ∧
    applyMargins (fun _ => none) (fun _ => none) [⟨"A", 5⟩] 7 = none := by
  refine ⟨?_, ?_, ?_⟩
  · exact getOrderMargins_spec.1 resolveAll
      (fun a syms => if a ≤ 3 then resolveAll a syms else none) ["A", "B"]
      (by intro a ha syms; fin_cases ha <;> rfl)
  · exact getOrderMargins_spec.2.1 resolveAll ["A", "B"]
      [⟨"A", 5⟩, ⟨"B", 5⟩] []
      (by
        intro a syms ms h
        obtain rfl : (syms.map fun s => (⟨s, 5⟩ : CompactMargin)) = ms :=
          Option.some.inj h
        rw [List.map_map]
        have hcomp : ((fun m : CompactMargin => m.tradingsymbol) ∘
            fun s => (⟨s, 5⟩ : CompactMargin)) = id := rfl
        rw [hcomp, List.map_id])
      (by decide) rfl
  · exact getOrderMargins_spec.2.2 (fun _ => none) (fun _ => none) [⟨"A", 5⟩] 7
      (by intro m hm; exact fun hc => Option.noConfusion hc)

theorem sendToClientsStep_eq (symbols : List String) (acc : ℕ → Option OptionChain)
    (option : OptionChain) (tok : ℕ) :
    sendToClientsStep symbols acc option tok =
      if option.name ∈ symbols ∧ tok = option.instrumentToken then some option
      else acc tok := by
  by_cases h1 : option.name ∈ symbols
  · by_cases h2 : tok = option.instrumentToken
    · simp [sendToClientsStep, h1, h2]
    · simp [sendToClientsStep, h1, h2]
  · simp [sendToClientsStep, h1]

theorem sendToClientsFilter_go (symbols : List String) :
    ∀ (options : List OptionChain) (acc : ℕ → Option OptionChain) (token : ℕ)
      (o : OptionChain),
      (options.foldl (sendToClientsStep symbols) acc) token = some o →
      (o.name ∈ symbols ∧ o ∈ options) ∨ acc token = some o := by
  intro options
  induction options with
  | nil => intro acc token o h; exact Or.inr h
  | cons opt rest ih =>
      intro acc token o h
      rw [List.foldl_cons] at h
      rcases ih (sendToClientsStep symbols acc opt) token o h with ⟨h1, h2⟩ | hacc
      · exact Or.inl ⟨h1, List.mem_cons_of_mem opt h2⟩
      · rw [sendToClientsStep_eq] at hacc
        by_cases hc : opt.name ∈ symbols ∧ token = opt.instrumentToken
        · rw [if_pos hc] at hacc
          obtain rfl : opt = o := Option.some.inj hacc
          exact Or.inl ⟨hc.1, List.mem_cons_self opt rest⟩
        · rw [if_neg hc] at hacc
          exact Or.inr hacc

/-- C7: every entry of the outbound record that TickerService.sendToClients
builds for one client lies in that client's subscribed symbol set (and
comes from the computed options list); a client subscribed only to GOLD
therefore receives only GOLD-underlying entries, whatever else the
aggregate chain holds. -/
theorem client_snapshot_respects_subscription (options : List OptionChain)
    (symbols : List String) (token : ℕ) (o : OptionChain)
    (h : sendToClientsFilter options symbols token = some o) :
    o.name ∈ symbols ∧ o ∈ options := by
  rcases sendToClientsFilter_go symbols options (fun _ => none) token o h with h1 | h2
  · exact h1
  · exact Option.noConfusion h2

/-- Witness for C7: a client subscribed to GOLD receiving the GOLD entry
published under token 7. -/
theorem client_snapshot_respects_subscription_witness :
    ("GOLD" ∈ (["GOLD"] : List String)) ∧ goldEntry ∈ [goldEntry] :=
  client_snapshot_respects_subscription [goldEntry] ["GOLD"] 7 goldEntry rfl

/-- C10: when an instrument's underlying has no live volatility sample
(entry missing from the volatility map, or its annualized volatility 0 and
hence falsy), the per-tick recompute leaves that instrument's option-chain
entry exactly as it was — every derived field keeps its stale value — and
the unchanged entry is still eligible for the published snapshot whenever
its stale sellValue exceeds its stale returnValue. -/
theorem calculateOptions_skips_no_vol_entries (vol : String → Option VolValue)
    (cfg : String → CommodityConfig) (futureLtps : String → String → ℝ) (T : ℤ)
    (minutesTillExpiry : String → ℤ) (deltaFn : ℝ → ℝ → ℝ → ℝ → OptionType → ℝ)
    (optionChain : List OptionChain) (instrument : OptionChain)
    (hv : ∀ v, vol instrument.name = some v → v.av = 0) :
    calculateOptionsStep vol cfg futureLtps T minutesTillExpiry deltaFn instrument =
      instrument ∧
    (instrument ∈ optionChain → instrument.returnValue < instrument.sellValue →
      instrument ∈ (calculateOptions vol cfg futureLtps T minutesTillExpiry deltaFn
        optionChain).2) := by
  have hstep : calculateOptionsStep vol cfg futureLtps T minutesTillExpiry deltaFn
      instrument = instrument := by
    rcases hvol : vol instrument.name with _ | v
    · simp only [calculateOptionsStep, hvol]
    · simp only [calculateOptionsStep, hvol, if_pos (hv v hvol)]
  refine ⟨hstep, fun hmem hlt => ?_⟩
  apply List.mem_filter.mpr
  constructor
  · exact List.mem_map.mpr ⟨instrument, hmem, hstep⟩
  · exact decide_eq_true hlt

/-- Witness for C10: the GOLD entry under an empty volatility map survives
the recompute unchanged and is published (its stale sellValue 1 exceeds its
stale returnValue 0). -/
theorem calculateOptions_skips_no_vol_entries_witness :
    calculateOptionsStep (fun _ => none) (fun _ => ⟨0, 0⟩) (fun _ _ => 0) 0
      (fun _ => 0) (fun _ _ _ _ _ => 0) goldEntry = goldEntry ∧
    goldEntry ∈ (calculateOptions (fun _ => none) (fun _ => ⟨0, 0⟩) (fun _ _ => 0) 0
      (fun _ => 0) (fun _ _ _ _ _ => 0) [goldEntry]).2 := by
  have h := calculateOptions_skips_no_vol_entries (fun _ => none) (fun _ => ⟨0, 0⟩)
    (fun _ _ => 0) 0 (fun _ => 0) (fun _ _ _ _ _ => 0) [goldEntry] goldEntry
    (fun v hv => Option.noConfusion hv)
  exact ⟨h.1, h.2 (List.mem_singleton.mpr rfl) (show (0:ℝ) < 1 by norm_num)⟩

end MCX
